import Mathlib

/-!
Verification development for the terminal image cat program (icat.py):
screen-geometry probing, graphics-protocol capability negotiation,
image placement/fit arithmetic and chunked base64 command framing.

Modelling conventions:
* Bytes are `Nat` values below 256; byte strings are `List Nat`.
* Python's float arithmetic in `fit_image` (`corrf = p / float(q)` followed by
  `floor(corrf * r)`) is modelled by exact rational arithmetic, i.e. the
  natural-number floor division `p * r / q`.
* External library calls (zlib compression, the base64 codec, the TIOCGWINSZ
  ioctl, file-system scanning) are modelled at their interface: zlib is an
  abstract parameter, base64 is the standard algorithm, the ioctl result and
  the scan result are explicit inputs.
-/

/-- `Size = namedtuple('Size', 'rows cols width height')` (icat.py line 56). -/
structure Size where
  rows : Nat
  cols : Nat
  width : Nat
  height : Nat
deriving DecidableEq, Repr

/-- `fit_image(width, height, pwidth, pheight)` (icat.py lines 80-91):
height-constraint correction, then width-constraint correction, then a second
height-constraint check.  `floor(corrf * x)` with `corrf = p / float(q)` is
modelled as the exact floor `p * x / q`. -/
def fit_image (width height pwidth pheight : Nat) : Nat × Nat :=
  let p1 := if pheight < height then (pheight * width / height, pheight) else (width, height)
  let p2 := if pwidth < p1.1 then (pwidth, pwidth * p1.2 / p1.1) else p1
  let p3 := if pheight < p2.2 then (pheight * p2.1 / p2.2, pheight) else p2
  p3

/-- `a < (a / b + 1) * b` for positive `b`: the floor division underestimates
by less than one multiple of the divisor. -/
theorem nat_lt_div_succ_mul (a b : Nat) (hb : 0 < b) : a < (a / b + 1) * b := by
  calc a = b * (a / b) + a % b := (Nat.div_add_mod a b).symm
    _ < b * (a / b) + b := Nat.add_lt_add_left (Nat.mod_lt a hb) _
    _ = (a / b + 1) * b := by ring

/-- `a * b / c ≤ b` whenever `a ≤ c` and `c` is positive. -/
theorem nat_mul_div_le_right (a b c : Nat) (h : a ≤ c) (hc : 0 < c) :
    a * b / c ≤ b := by
  calc a * b / c ≤ c * b / c := Nat.div_le_div_right (Nat.mul_le_mul_right b h)
    _ = b := Nat.mul_div_cancel_left b hc

/-- Closed form of `fit_image`: the third pass (second height check) is
inert under exact arithmetic, because the width correction can only shrink
the height. -/
theorem fit_image_eq (w h W H : Nat) :
    fit_image w h W H =
      if H < h then
        (if W < H * w / h then (W, W * H / (H * w / h)) else (H * w / h, H))
      else
        (if W < w then (W, W * h / w) else (w, h)) := by
  by_cases c1 : H < h
  · by_cases c2 : W < H * w / h
    · have hc3 : ¬ H < W * H / (H * w / h) :=
        Nat.not_lt.mpr (nat_mul_div_le_right W H (H * w / h) (le_of_lt c2)
          (lt_of_le_of_lt (Nat.zero_le W) c2))
      simp [fit_image, c1, c2, hc3]
    · simp [fit_image, c1, c2]
  · by_cases c2 : W < w
    · have hc3 : ¬ H < W * h / w :=
        Nat.not_lt.mpr (le_trans
          (nat_mul_div_le_right W h w (le_of_lt c2) (lt_of_le_of_lt (Nat.zero_le W) c2))
          (Nat.not_lt.mp c1))
      simp [fit_image, c1, c2, hc3]
    · simp [fit_image, c1, c2]

/-- C6, counterexample: `fit(2, 2, 0, 0)` collapses the image to `(0, 0)`;
zero bounds are not a no-op. -/
theorem fit_image_zero_bounds_counterexample :
    fit_image 2 2 0 0 = (0, 0) ∧ fit_image 2 2 0 0 ≠ (2, 2) := by decide

/-- C6 (amended): `fit(w, h, 0, 0)` collapses every image to `(0, 0)`
(it is not a no-op), while any bound at least `max w h` in both directions
leaves the dimensions unchanged. -/
theorem fit_image_noop_amended (w h W H : Nat)
    (hW : max w h ≤ W) (hH : max w h ≤ H) :
    fit_image w h 0 0 = (0, 0) ∧ fit_image w h W H = (w, h) := by
  constructor
  · rw [fit_image_eq]
    rcases Nat.eq_zero_or_pos h with hh | hh
    · subst hh
      simp only [Nat.not_lt_zero, if_false]
      rcases Nat.eq_zero_or_pos w with hw | hw
      · subst hw; simp
      · simp [hw]
    · simp [hh, Nat.zero_mul, Nat.zero_div]
  · rw [fit_image_eq]
    have h1 : ¬ H < h := Nat.not_lt.mpr (le_trans (le_max_right w h) hH)
    have h2 : ¬ W < w := Nat.not_lt.mpr (le_trans (le_max_left w h) hW)
    simp [h1, h2]

/-- Witness for the amended C6 theorem at a concrete input. -/
theorem fit_image_noop_amended_witness :
    max 3 2 ≤ 5 ∧ max 3 2 ≤ 7 ∧
      (fit_image 3 2 0 0 = (0, 0) ∧ fit_image 3 2 5 7 = (3, 2)) :=
  ⟨by decide, by decide, fit_image_noop_amended 3 2 5 7 (by decide) (by decide)⟩

/-- The displayed pair `(w2, h2)` matches the native aspect ratio `(w, h)`
within a rounding tolerance of one pixel: some exactly scaled copy
`(t * w, t * h)` of the native dimensions lies within one pixel of
`(w2, h2)` in each coordinate. -/
def aspect_within_one_pixel (w h w2 h2 : Nat) : Prop :=
  ∃ t : ℚ, 0 ≤ t ∧ |(w2 : ℚ) - t * (w : ℚ)| ≤ 1 ∧ |(h2 : ℚ) - t * (h : ℚ)| ≤ 1

/-- A single floor-scaled correction `(H * w / h, H)` stays within one pixel
of the exact scaled copy at factor `H / h`. -/
theorem aspect_floor_scale (w h H : Nat) (hh : 0 < h) :
    aspect_within_one_pixel w h (H * w / h) H := by
  have hq : (0 : ℚ) < (h : ℚ) := by exact_mod_cast hh
  refine ⟨(H : ℚ) / (h : ℚ), div_nonneg (Nat.cast_nonneg H) (Nat.cast_nonneg h), ?_, ?_⟩
  · have h1 : (H * w / h) * h ≤ H * w := Nat.div_mul_le_self (H * w) h
    have h2 : H * w < (H * w / h + 1) * h := nat_lt_div_succ_mul (H * w) h hh
    have h1q : ((H * w / h : Nat) : ℚ) * h ≤ (H : ℚ) * w := by exact_mod_cast h1
    have h2q : (H : ℚ) * w < (((H * w / h : Nat) : ℚ) + 1) * h := by exact_mod_cast h2
    have e : (H : ℚ) / h * w = (H : ℚ) * w / h := by ring
    have lo : ((H * w / h : Nat) : ℚ) ≤ (H : ℚ) * w / h := (le_div_iff₀ hq).mpr h1q
    have hi2 : (H : ℚ) * w / h < ((H * w / h : Nat) : ℚ) + 1 := (div_lt_iff₀ hq).mpr h2q
    rw [abs_le, e]
    exact ⟨by linarith, by linarith⟩
  · rw [div_mul_cancel₀ _ (ne_of_gt hq)]
    simp

/-- The aspect-tolerance relation is symmetric under swapping the two axes. -/
theorem aspect_swap (w h a b : Nat) (hab : aspect_within_one_pixel w h a b) :
    aspect_within_one_pixel h w b a := by
  obtain ⟨t, ht0, h1, h2⟩ := hab
  exact ⟨t, ht0, h2, h1⟩

/-- The compound correction of `fit_image`'s overflow-overflow branch
(height pass then width pass, two stacked floors) still stays within one
pixel of an exact scaled copy of the native dimensions. -/
theorem aspect_two_floor (w h W H : Nat) (hh : 0 < h) (hc2 : W < H * w / h) :
    aspect_within_one_pixel w h W (W * H / (H * w / h)) := by
  set w1 := H * w / h with hw1def
  set h2 := W * H / w1 with hh2def
  have hw1 : 0 < w1 := lt_of_le_of_lt (Nat.zero_le W) hc2
  have hH : 0 < H := by
    rcases Nat.eq_zero_or_pos H with h0 | h0
    · exfalso; rw [h0] at hw1def; simp [hw1def] at hw1
    · exact h0
  have hw : 0 < w := by
    rcases Nat.eq_zero_or_pos w with h0 | h0
    · exfalso; rw [h0] at hw1def; simp [hw1def] at hw1
    · exact h0
  rcases Nat.eq_zero_or_pos W with hW0 | hW1
  · refine ⟨0, le_refl 0, ?_, ?_⟩
    · rw [hW0]; simp
    · have : h2 = 0 := by rw [hh2def, hW0]; simp
      rw [this]; simp
  -- main case: 1 ≤ W
  · have A1 : w1 * h ≤ H * w := Nat.div_mul_le_self (H * w) h
    have A2 : H * w < (w1 + 1) * h := nat_lt_div_succ_mul (H * w) h hh
    have B1 : h2 * w1 ≤ W * H := Nat.div_mul_le_self (W * H) w1
    have B2 : W * H < (h2 + 1) * w1 := nat_lt_div_succ_mul (W * H) w1 hw1
    have hi : h * W < (h2 + 1) * w := by
      have step : H * (h * W) < H * ((h2 + 1) * w) := by
        calc H * (h * W) = h * (W * H) := by ring
          _ < h * ((h2 + 1) * w1) := mul_lt_mul_of_pos_left B2 hh
          _ = (h2 + 1) * (w1 * h) := by ring
          _ ≤ (h2 + 1) * (H * w) := Nat.mul_le_mul_left (h2 + 1) A1
          _ = H * ((h2 + 1) * w) := by ring
      exact Nat.lt_of_mul_lt_mul_left step
    have hii : w * h2 < h * (W + 1) := by
      have step : w1 * (w * h2) < w1 * (h * (W + 1)) := by
        calc w1 * (w * h2) = w * (h2 * w1) := by ring
          _ ≤ w * (W * H) := Nat.mul_le_mul_left w B1
          _ = W * (H * w) := by ring
          _ < W * ((w1 + 1) * h) := mul_lt_mul_of_pos_left A2 hW1
          _ = W * w1 * h + W * h := by ring
          _ < W * w1 * h + w1 * h := by
              exact Nat.add_lt_add_left (mul_lt_mul_of_pos_right hc2 hh) _
          _ = w1 * (h * (W + 1)) := by ring
      exact Nat.lt_of_mul_lt_mul_left step
    have hqw : (0 : ℚ) < (w : ℚ) := by exact_mod_cast hw
    have hqh : (0 : ℚ) < (h : ℚ) := by exact_mod_cast hh
    have hiq : (h : ℚ) * W < ((h2 : ℚ) + 1) * w := by exact_mod_cast hi
    have hiiq : (w : ℚ) * h2 < (h : ℚ) * ((W : ℚ) + 1) := by exact_mod_cast hii
    have hW1q : (1 : ℚ) ≤ (W : ℚ) := by exact_mod_cast hW1
    refine ⟨max (((W : ℚ) - 1) / w) (((h2 : ℚ) - 1) / h), ?_, ?_, ?_⟩
    · exact le_trans (div_nonneg (by linarith) (le_of_lt hqw)) (le_max_left _ _)
    · rw [abs_le]
      constructor
      · have ub : max (((W : ℚ) - 1) / w) (((h2 : ℚ) - 1) / h) ≤ ((W : ℚ) + 1) / w := by
          refine max_le ?_ ?_
          · exact (div_le_div_iff₀ hqw hqw).mpr (by nlinarith)
          · exact (div_le_div_iff₀ hqh hqw).mpr (by nlinarith)
        have := (le_div_iff₀ hqw).mp ub
        linarith
      · have lb := (div_le_iff₀ hqw).mp (le_max_left (((W : ℚ) - 1) / w) (((h2 : ℚ) - 1) / h))
        linarith
    · rw [abs_le]
      constructor
      · have ub : max (((W : ℚ) - 1) / w) (((h2 : ℚ) - 1) / h) ≤ ((h2 : ℚ) + 1) / h := by
          refine max_le ?_ ?_
          · exact (div_le_div_iff₀ hqw hqh).mpr (by nlinarith)
          · exact (div_le_div_iff₀ hqh hqh).mpr (by nlinarith)
        have := (le_div_iff₀ hqh).mp ub
        linarith
      · have lb := (div_le_iff₀ hqh).mp (le_max_right (((W : ℚ) - 1) / w) (((h2 : ℚ) - 1) / h))
        linarith

/-- C7: the fitted dimensions never exceed the given pixel bounds, and the
aspect ratio is preserved within a rounding tolerance of one pixel. -/
theorem fit_image_correct (w h W H : Nat) :
    (fit_image w h W H).1 ≤ W ∧ (fit_image w h W H).2 ≤ H ∧
      aspect_within_one_pixel w h (fit_image w h W H).1 (fit_image w h W H).2 := by
  rw [fit_image_eq]
  by_cases c1 : H < h
  · have hh : 0 < h := lt_of_le_of_lt (Nat.zero_le H) c1
    by_cases c2 : W < H * w / h
    · rw [if_pos c1, if_pos c2]
      exact ⟨le_refl W,
        nat_mul_div_le_right W H (H * w / h) (le_of_lt c2) (lt_of_le_of_lt (Nat.zero_le W) c2),
        aspect_two_floor w h W H hh c2⟩
    · rw [if_pos c1, if_neg c2]
      exact ⟨Nat.not_lt.mp c2, le_refl H, aspect_floor_scale w h H hh⟩
  · by_cases c2 : W < w
    · have hw : 0 < w := lt_of_le_of_lt (Nat.zero_le W) c2
      rw [if_neg c1, if_pos c2]
      exact ⟨le_refl W,
        le_trans (nat_mul_div_le_right W h w (le_of_lt c2) hw) (Nat.not_lt.mp c1),
        aspect_swap h w (W * h / w) W (aspect_floor_scale h w W hw)⟩
    · rw [if_neg c1, if_neg c2]
      exact ⟨Nat.not_lt.mp c2, Nat.not_lt.mp c1, ⟨1, zero_le_one, by simp, by simp⟩⟩

/-- Alphabet of `standard_b64encode`: the ASCII code of the base64 digit for a
6-bit index. -/
def b64char (i : Nat) : Nat :=
  if i < 26 then 65 + i
  else if i < 52 then 97 + (i - 26)
  else if i < 62 then 48 + (i - 52)
  else if i = 62 then 43
  else 47

/-- Inverse alphabet lookup: 6-bit index of a base64 digit's ASCII code. -/
def b64val (c : Nat) : Nat :=
  if 65 ≤ c ∧ c ≤ 90 then c - 65
  else if 97 ≤ c ∧ c ≤ 122 then c - 97 + 26
  else if 48 ≤ c ∧ c ≤ 57 then c - 48 + 52
  else if c = 43 then 62
  else 63

theorem b64val_b64char : ∀ i, i < 64 → b64val (b64char i) = i := by decide

theorem b64char_ne_pad : ∀ i, i < 64 → b64char i ≠ 61 := by decide

/-- `standard_b64encode` (Python `base64` module): 3 input bytes become 4
alphabet bytes; a 2-byte (resp. 1-byte) tail becomes 3 (resp. 2) alphabet
bytes padded with `'='` (ASCII 61). -/
def standard_b64encode : List Nat → List Nat
  | a :: b :: c :: rest =>
      b64char ((a * 65536 + b * 256 + c) / 262144) ::
      b64char ((a * 65536 + b * 256 + c) / 4096 % 64) ::
      b64char ((a * 65536 + b * 256 + c) / 64 % 64) ::
      b64char ((a * 65536 + b * 256 + c) % 64) :: standard_b64encode rest
  | [a, b] =>
      [b64char ((a * 65536 + b * 256) / 262144),
       b64char ((a * 65536 + b * 256) / 4096 % 64),
       b64char ((a * 65536 + b * 256) / 64 % 64), 61]
  | [a] =>
      [b64char ((a * 65536) / 262144), b64char ((a * 65536) / 4096 % 64), 61, 61]
  | [] => []

/-- Standard base64 decoding (the reassembly direction of the spec): groups of
4 alphabet bytes become 3 payload bytes, with `'='` padding trimming the tail. -/
def standard_b64decode : List Nat → List Nat
  | c1 :: c2 :: c3 :: c4 :: rest =>
      if c4 = 61 then
        if c3 = 61 then
          [(b64val c1 * 262144 + b64val c2 * 4096) / 65536]
        else
          [(b64val c1 * 262144 + b64val c2 * 4096 + b64val c3 * 64) / 65536,
           (b64val c1 * 262144 + b64val c2 * 4096 + b64val c3 * 64) / 256 % 256]
      else
        (b64val c1 * 262144 + b64val c2 * 4096 + b64val c3 * 64 + b64val c4) / 65536 ::
        (b64val c1 * 262144 + b64val c2 * 4096 + b64val c3 * 64 + b64val c4) / 256 % 256 ::
        (b64val c1 * 262144 + b64val c2 * 4096 + b64val c3 * 64 + b64val c4) % 256 ::
        standard_b64decode rest
  | _ => []

/-- Decoding inverts encoding on byte strings (all entries below 256). -/
theorem b64_roundtrip (l : List Nat) (h : ∀ x ∈ l, x < 256) :
    standard_b64decode (standard_b64encode l) = l := by
  match l with
  | [] => rfl
  | [a] =>
      have ha : a < 256 := h a (by simp)
      simp only [standard_b64encode, standard_b64decode, if_pos rfl]
      rw [b64val_b64char _ (by omega), b64val_b64char _ (by omega)]
      norm_num
      omega
  | [a, b] =>
      have ha : a < 256 := h a (by simp)
      have hb : b < 256 := h b (by simp)
      have h3 : (a * 65536 + b * 256) / 64 % 64 < 64 := Nat.mod_lt _ (by omega)
      simp only [standard_b64encode, standard_b64decode, if_pos rfl,
        if_neg (b64char_ne_pad _ h3)]
      rw [b64val_b64char _ (by omega), b64val_b64char _ (by omega), b64val_b64char _ h3]
      norm_num
      constructor
      · omega
      · omega
  | a :: b :: c :: rest =>
      have ha : a < 256 := h a (by simp)
      have hb : b < 256 := h b (by simp)
      have hc : c < 256 := h c (by simp)
      have h4 : (a * 65536 + b * 256 + c) % 64 < 64 := Nat.mod_lt _ (by omega)
      have ih := b64_roundtrip rest (fun x hx => h x (by simp [hx]))
      simp only [standard_b64encode, standard_b64decode, if_neg (b64char_ne_pad _ h4)]
      rw [b64val_b64char _ (by omega), b64val_b64char _ (by omega),
        b64val_b64char _ (by omega), b64val_b64char _ h4, ih]
      norm_num
      refine ⟨by omega, by omega, by omega⟩

/-- Whether `write_chunked` sets the compression marker `o=z` (icat.py lines
114-116): every mode except the pre-encoded PNG mode is DEFLATE-compressed. -/
def deflate_flag (mode : String) : Bool := !(mode == "PNG")

/-- The byte string handed to base64 by `write_chunked` (icat.py lines
114-117): non-PNG payloads are zlib-compressed first (the compression
collaborator is an abstract parameter), PNG payloads pass through. -/
def encInput (mode : String) (compress : List Nat → List Nat) (data : List Nat) : List Nat :=
  if deflate_flag mode then compress data else data

/-- The chunking loop of `write_chunked` (icat.py lines 118-123), with an
explicit structural fuel equal to the data length: repeatedly split off the
first 4096 bytes, emitting one `(m, chunk)` frame per iteration where `m = 1`
exactly when data remains after the chunk. -/
def chunkFramesAux : Nat → List Nat → List (Nat × List Nat)
  | _, [] => []
  | 0, _ :: _ => []
  | fuel + 1, x :: xs =>
      ((if ((x :: xs).drop 4096).isEmpty then 0 else 1), (x :: xs).take 4096) ::
        chunkFramesAux fuel ((x :: xs).drop 4096)

/-- Frame list emitted by the `while data:` loop for a given base64 text. -/
def chunkFrames (d : List Nat) : List (Nat × List Nat) := chunkFramesAux d.length d

/-- `write_chunked(mode, cmd, data)` (icat.py lines 113-123) reduced to its
observable wire content: the ordered list of `(m flag, chunk payload)` frames. -/
def write_chunked (mode : String) (compress : List Nat → List Nat) (data : List Nat) :
    List (Nat × List Nat) :=
  chunkFrames (standard_b64encode (encInput mode compress data))

theorem chunkFramesAux_join (fuel : Nat) (d : List Nat) (hfuel : d.length ≤ fuel) :
    ((chunkFramesAux fuel d).map Prod.snd).flatten = d := by
  induction fuel generalizing d with
  | zero =>
      cases d with
      | nil => rfl
      | cons x xs => simp at hfuel
  | succ fuel ih =>
      cases d with
      | nil => rfl
      | cons x xs =>
          have hrest : ((x :: xs).drop 4096).length ≤ fuel := by
            simp only [List.length_drop, List.length_cons]
            simp only [List.length_cons] at hfuel
            omega
          simp only [chunkFramesAux, List.map_cons, List.flatten_cons, ih _ hrest]
          exact List.take_append_drop 4096 (x :: xs)

theorem chunkFramesAux_spec (fuel : Nat) (d : List Nat)
    (hfuel : d.length ≤ fuel) (hne : d ≠ []) :
    chunkFramesAux fuel d ≠ [] ∧
      (∀ f ∈ (chunkFramesAux fuel d).dropLast, f.1 = 1 ∧ f.2.length = 4096) ∧
      (∃ c, (chunkFramesAux fuel d).getLast? = some (0, c) ∧ c ≠ [] ∧ c.length ≤ 4096) ∧
      (chunkFramesAux fuel d).countP (fun f => f.1 == 0) = 1 := by
  induction fuel generalizing d with
  | zero =>
      cases d with
      | nil => exact absurd rfl hne
      | cons x xs => simp at hfuel
  | succ fuel ih =>
      cases d with
      | nil => exact absurd rfl hne
      | cons x xs =>
          by_cases hshort : (x :: xs).length ≤ 4096
          · have hdrop : (x :: xs).drop 4096 = [] := List.drop_eq_nil_of_le hshort
            have htake : (x :: xs).take 4096 = x :: xs := List.take_of_length_le hshort
            rw [chunkFramesAux, hdrop, htake]
            simp only [List.isEmpty_nil, if_pos rfl, chunkFramesAux]
            refine ⟨by simp, by simp, ⟨x :: xs, by simp, by simp, hshort⟩, by simp⟩
          · have hlong : 4096 < (x :: xs).length := Nat.not_le.mp hshort
            have hdropne : (x :: xs).drop 4096 ≠ [] := by
              intro hcontra
              have := congrArg List.length hcontra
              simp only [List.length_drop, List.length_nil] at this
              omega
            have hrest : ((x :: xs).drop 4096).length ≤ fuel := by
              simp only [List.length_drop, List.length_cons]
              simp only [List.length_cons] at hfuel
              omega
            have hEmpty : ((x :: xs).drop 4096).isEmpty = false := by
              cases hd : (x :: xs).drop 4096 with
              | nil => exact absurd hd hdropne
              | cons y ys => rfl
            obtain ⟨ihne, ihdrop, ⟨c, ihlast, hcne, hclen⟩, ihcount⟩ :=
              ih ((x :: xs).drop 4096) hrest hdropne
            rw [chunkFramesAux, hEmpty]
            simp only [Bool.false_eq_true, if_false]
            refine ⟨by simp, ?_, ⟨c, ?_, hcne, hclen⟩, ?_⟩
            · intro f hf
              cases hrec : chunkFramesAux fuel ((x :: xs).drop 4096) with
              | nil => exact absurd hrec ihne
              | cons g gs =>
                  rw [hrec] at hf
                  simp only [List.dropLast_cons₂, List.mem_cons] at hf
                  rcases hf with hf | hf
                  · subst hf
                    refine ⟨rfl, ?_⟩
                    simp only [List.length_take]
                    omega
                  · refine ihdrop f ?_
                    rw [hrec]
                    exact hf
            · cases hrec : chunkFramesAux fuel ((x :: xs).drop 4096) with
              | nil => exact absurd hrec ihne
              | cons g gs =>
                  rw [hrec] at ihlast
                  rw [List.getLast?_cons_cons]
                  exact ihlast
            · simp only [List.countP_cons]
              simp only [ihcount]
              norm_num

theorem standard_b64encode_ne_nil (l : List Nat) (h : l ≠ []) :
    standard_b64encode l ≠ [] := by
  match l with
  | [] => exact absurd rfl h
  | [a] => simp [standard_b64encode]
  | [a, b] => simp [standard_b64encode]
  | a :: b :: c :: rest => simp [standard_b64encode]

/-- C4, counterexample: in the pre-encoded mode with an empty payload the
base64 text is empty, the chunk loop never runs, and no frame at all is
emitted -- in particular no frame (rather than exactly one) carries
continuation flag `m = 0`. -/
theorem write_chunked_empty_counterexample :
    write_chunked "PNG" (fun l => l) [] = [] ∧
      (write_chunked "PNG" (fun l => l) []).countP (fun f => f.1 == 0) = 0 := by
  constructor <;> rfl

/-- C4 (amended): whenever the byte string handed to base64 is nonempty (true
for every payload in the compressed modes, and for every nonempty payload in
the pre-encoded mode), `write_chunked` emits at least one frame, every frame
except the last carries `m = 1` and exactly 4096 encoded bytes, the last frame
carries `m = 0` and a nonempty chunk of at most 4096 bytes, exactly one frame
carries `m = 0`, and no byte of the encoded text is dropped. -/
theorem write_chunked_chunking (mode : String) (compress : List Nat → List Nat)
    (data : List Nat) (h : encInput mode compress data ≠ []) :
    write_chunked mode compress data ≠ [] ∧
      (∀ f ∈ (write_chunked mode compress data).dropLast, f.1 = 1 ∧ f.2.length = 4096) ∧
      (∃ c, (write_chunked mode compress data).getLast? = some (0, c) ∧
        c ≠ [] ∧ c.length ≤ 4096) ∧
      (write_chunked mode compress data).countP (fun f => f.1 == 0) = 1 ∧
      ((write_chunked mode compress data).map Prod.snd).flatten =
        standard_b64encode (encInput mode compress data) := by
  have henc : standard_b64encode (encInput mode compress data) ≠ [] :=
    standard_b64encode_ne_nil _ h
  simp only [write_chunked, chunkFrames]
  obtain ⟨h1, h2, h3, h4⟩ := chunkFramesAux_spec _ _ (le_refl _) henc
  exact ⟨h1, h2, h3, h4, chunkFramesAux_join _ _ (le_refl _)⟩

/-- Witness for the amended C4 theorem at a concrete input. -/
theorem write_chunked_chunking_witness :
    encInput "RGB" (fun l => l) [1, 2, 3] ≠ [] ∧
      (write_chunked "RGB" (fun l => l) [1, 2, 3] ≠ [] ∧
        (∀ f ∈ (write_chunked "RGB" (fun l => l) [1, 2, 3]).dropLast,
          f.1 = 1 ∧ f.2.length = 4096) ∧
        (∃ c, (write_chunked "RGB" (fun l => l) [1, 2, 3]).getLast? = some (0, c) ∧
          c ≠ [] ∧ c.length ≤ 4096) ∧
        (write_chunked "RGB" (fun l => l) [1, 2, 3]).countP (fun f => f.1 == 0) = 1 ∧
        ((write_chunked "RGB" (fun l => l) [1, 2, 3]).map Prod.snd).flatten =
          standard_b64encode (encInput "RGB" (fun l => l) [1, 2, 3])) :=
  ⟨by decide, write_chunked_chunking "RGB" (fun l => l) [1, 2, 3] (by decide)⟩

/-- C5: concatenating the emitted chunk payloads in order, base64-decoding
the concatenation, and inflating exactly when the compression flag was set
recovers the original payload bytes.  zlib compress/inflate are abstract
collaborators; the zlib round-trip contract is the hypothesis `hzlib`,
satisfied by any correct DEFLATE codec. -/
theorem write_chunked_reassembly (mode : String) (compress inflate : List Nat → List Nat)
    (data : List Nat)
    (hbytes : ∀ b ∈ encInput mode compress data, b < 256)
    (hzlib : deflate_flag mode = true → inflate (compress data) = data) :
    (if deflate_flag mode then
        inflate (standard_b64decode
          (((write_chunked mode compress data).map Prod.snd).flatten))
      else
        standard_b64decode
          (((write_chunked mode compress data).map Prod.snd).flatten)) = data := by
  have hjoin : ((write_chunked mode compress data).map Prod.snd).flatten =
      standard_b64encode (encInput mode compress data) := by
    simp only [write_chunked, chunkFrames]
    exact chunkFramesAux_join _ _ (le_refl _)
  rw [hjoin, b64_roundtrip _ hbytes]
  cases hm : deflate_flag mode with
  | true =>
      simp only [encInput, hm, if_true]
      exact hzlib hm
  | false =>
      simp only [encInput, hm, Bool.false_eq_true, if_false]

/-- Witness for the C5 theorem at a concrete input (identity codec). -/
theorem write_chunked_reassembly_witness :
    (∀ b ∈ encInput "RGB" (fun l => l) [0, 255, 10], b < 256) ∧
      (if deflate_flag "RGB" then
          (fun l => l) (standard_b64decode
            (((write_chunked "RGB" (fun l => l) [0, 255, 10]).map Prod.snd).flatten))
        else
          standard_b64decode
            (((write_chunked "RGB" (fun l => l) [0, 255, 10]).map Prod.snd).flatten))
        = [0, 255, 10] :=
  ⟨by decide, write_chunked_reassembly "RGB" (fun l => l) (fun l => l) [0, 255, 10]
    (by decide) (fun _ => rfl)⟩

/-- Saved/transient terminal state of `detect_support`: the termios attribute
word and the input stream's file status flags, both opaque numbers. -/
structure TermState where
  attrs : Nat
  fl : Nat
deriving DecidableEq, Repr

/-- `os.O_NONBLOCK` on Linux. -/
def O_NONBLOCK : Nat := 2048

/-- `tty.setraw` replaces the attribute word; its value is opaque here. -/
def raw_attrs : Nat := 0

/-- One 0.1 s select slice of observable input activity during the polling
loop of `detect_support`: nothing readable, a parsed response frame for a
probe id, end-of-input, or an I/O error escaping the loop body.  The
byte/regex layer of `parse_responses` is modelled at the frame level. -/
inductive PollEvent where
  | silent
  | frame (id : Nat) (ok : Bool)
  | eof
  | ioError
deriving DecidableEq, Repr

/-- `parse_responses` recording discipline (icat.py lines 194-200): the first
response frame for id 1 or id 2 is recorded; later frames for an
already-resolved id, and frames for other ids, are ignored. -/
def record (responses : Option Bool × Option Bool) (id : Nat) (ok : Bool) :
    Option Bool × Option Bool :=
  if id = 1 then
    (if responses.1 = none then (some ok, responses.2) else responses)
  else if id = 2 then
    (if responses.2 = none then (responses.1, some ok) else responses)
  else responses

/-- The while condition of icat.py line 217, verbatim:
`monotonic() - start_time < wait_for  and  1 not in responses  and
2 not in responses`. -/
def loop_continues (elapsed wait_for : Nat) (responses : Option Bool × Option Bool) : Bool :=
  decide (elapsed < wait_for) && responses.1.isNone && responses.2.isNone

/-- The polling loop (icat.py lines 215-219), time counted in whole select
slices; `remaining = wait_for - elapsed` makes the recursion structural, so
the loop body runs exactly while `elapsed < wait_for` and neither id is
resolved -- the line-217 condition.  Returns `none` when an exception escapes
the body, otherwise the response table and the elapsed slice count at exit. -/
def poll_loop : Nat → Nat → (Option Bool × Option Bool) → List PollEvent →
    Option ((Option Bool × Option Bool) × Nat)
  | 0, elapsed, responses, _ => some (responses, elapsed)
  | remaining + 1, elapsed, responses, events =>
      if responses.1.isSome || responses.2.isSome then some (responses, elapsed)
      else
        match events with
        | [] => poll_loop remaining (elapsed + 1) responses []
        | PollEvent.silent :: rest => poll_loop remaining (elapsed + 1) responses rest
        | PollEvent.frame id ok :: rest =>
            poll_loop remaining (elapsed + 1) (record responses id ok) rest
        | PollEvent.eof :: rest =>
            poll_loop remaining (elapsed + 1) (some false, some false) rest
        | PollEvent.ioError :: _ => none

/-- `detect_support(wait_for)` (icat.py lines 181-225) as explicit state
passing over the terminal state: save the attributes and flags, set
non-blocking then raw mode, run the polling loop over the event trace, and
let the `finally` block restore the saved attributes (tcsetattr) and flags
(fcntl) regardless of the loop's outcome.  The returned value models
`(responses.get(1, False), bool(responses.get(2)))` together with the elapsed
slice count, or `none` if an exception escaped (the restore still runs). -/
def detect_support (wait_for : Nat) (events : List PollEvent) (t0 : TermState) :
    Option ((Bool × Bool) × Nat) × TermState :=
  let old := t0.attrs
  let oldfl := t0.fl
  let during : TermState := { attrs := raw_attrs, fl := Nat.lor oldfl O_NONBLOCK }
  let body := poll_loop wait_for 0 (none, none) events
  let afterAttrs : TermState := { during with attrs := old }
  let final : TermState := { afterAttrs with fl := oldfl }
  (body.map (fun r => ((r.1.1.getD false, r.1.2.getD false), r.2)), final)

/-- On an all-silent trace the polling loop spins down the whole deadline
with an empty response table. -/
theorem poll_loop_silent (remaining : Nat) : ∀ (elapsed : Nat) (events : List PollEvent),
    (∀ e ∈ events, e = PollEvent.silent) →
    poll_loop remaining elapsed (none, none) events =
      some ((none, none), elapsed + remaining) := by
  induction remaining with
  | zero => intro elapsed events _; simp [poll_loop]
  | succ remaining ih =>
      intro elapsed events hsilent
      cases events with
      | nil =>
          have harith : elapsed + (remaining + 1) = (elapsed + 1) + remaining := by omega
          simp only [poll_loop, Option.isSome_none, Bool.or_self, Bool.false_eq_true,
            if_false, harith]
          exact ih (elapsed + 1) [] (by simp)
      | cons e rest =>
          have he : e = PollEvent.silent := hsilent e (by simp)
          subst he
          have harith : elapsed + (remaining + 1) = (elapsed + 1) + remaining := by omega
          simp only [poll_loop, Option.isSome_none, Bool.or_self, Bool.false_eq_true,
            if_false, harith]
          exact ih (elapsed + 1) rest (fun x hx => hsilent x (by simp [hx]))

/-- C3: if no response frames ever arrive and no end-of-input occurs (an
all-silent trace), `detect_support` returns `(false, false)` after at most
`wait_for` slices; and on every run -- every event trace, including error
traces -- the terminal attributes and the non-blocking flag after the call
are identical to their values before it. -/
theorem detect_support_silent_timeout (wait_for : Nat) (events : List PollEvent)
    (t0 : TermState) :
    ((∀ e ∈ events, e = PollEvent.silent) →
      ∃ n, (detect_support wait_for events t0).1 = some ((false, false), n) ∧
        n ≤ wait_for) ∧
    (detect_support wait_for events t0).2 = t0 := by
  constructor
  · intro hsilent
    refine ⟨wait_for, ?_, le_refl wait_for⟩
    simp only [detect_support]
    rw [poll_loop_silent wait_for 0 events hsilent]
    simp
  · rfl

/-- Witness for the C3 theorem at a concrete input. -/
theorem detect_support_silent_timeout_witness :
    (∃ n, (detect_support 3 [PollEvent.silent, PollEvent.silent] ⟨5, 7⟩).1 =
        some ((false, false), n) ∧ n ≤ 3) ∧
      (detect_support 3 [PollEvent.silent, PollEvent.silent] ⟨5, 7⟩).2 = ⟨5, 7⟩ :=
  ⟨(detect_support_silent_timeout 3 [PollEvent.silent, PollEvent.silent] ⟨5, 7⟩).1
      (by decide),
   (detect_support_silent_timeout 3 [PollEvent.silent, PollEvent.silent] ⟨5, 7⟩).2⟩

/-- C1 (code bug at icat.py line 217): the while condition is
`elapsed < wait_for and 1 not in responses and 2 not in responses`, so the
loop stops as soon as EITHER id resolves.  With id 1 answered in the first
slice and id 2's answer arriving the very next slice, well before the
100-slice deadline, `loop_continues` is already false after the first
response, and `detect_support` returns after 1 slice reporting file transfer
unsupported -- it never reads id 2's response. -/
theorem detect_support_stops_after_first_response :
    loop_continues 1 100 (some true, none) = false ∧
      (detect_support 100 [PollEvent.frame 1 true, PollEvent.frame 2 true] ⟨0, 0⟩).1 =
        some ((true, false), 1) := by
  constructor <;> rfl

/-- `int(ceil(a / b))` for nonnegative integers with positive divisor. -/
def ceil_div (a b : Nat) : Nat := (a + b - 1) / b

/-- The `c`, `r`, `Y`, `X` keys that `set_cursor` may add to the command. -/
structure CursorCmd where
  c : Option Nat := none
  r : Option Nat := none
  Y : Option Nat := none
  X : Option Nat := none
deriving DecidableEq, Repr

/-- `set_cursor(cmd, width, height)` (icat.py lines 94-110): the keys added
to the command, paired with the number of leading pad cells written.  In the
width-overflow branch the code calls `fit_image` but then computes the row
count and the `Y` offset from the ORIGINAL height, discarding the corrected
dimensions (`_wh` below is the discarded call). -/
def set_cursor (ss : Size) (width height : Nat) : CursorCmd × Nat :=
  let cw := ss.width / ss.cols
  let num_of_cells_needed := ceil_div width cw
  if ss.cols < num_of_cells_needed then
    let _wh := fit_image width height ss.width height
    let ch := ss.height / ss.rows
    let num_of_rows_needed := ceil_div height ch
    let y_off := height % ch
    ({ c := some ss.cols, r := some num_of_rows_needed, Y := some y_off }, 0)
  else
    let x_off := width % cw
    let extra_cells := (ss.cols - num_of_cells_needed) / 2
    ({ X := some x_off }, extra_cells)

/-- C2 (code bug at icat.py lines 99-104): on geometry rows=50 cols=100
pixel_width=1000 pixel_height=800 (cells 10x16) and a 2000x500 image the
overflow branch is taken; the re-fit (both the claim's full-bounds re-fit
and the code's own `fit_image(width, height, ss.width, height)` call) yields
corrected height 250, yet the emitted reservation is r=32=ceil(500/16) and
Y=4=500 mod 16, computed from the original height 500; the corrected height
would give r=16 and Y=10.  No X offset and no padding are emitted here. -/
theorem set_cursor_uses_uncorrected_height :
    (set_cursor ⟨50, 100, 1000, 800⟩ 2000 500).1 =
      { c := some 100, r := some 32, Y := some 4, X := none } ∧
    (set_cursor ⟨50, 100, 1000, 800⟩ 2000 500).2 = 0 ∧
    (fit_image 2000 500 1000 800).2 = 250 ∧
    (fit_image 2000 500 1000 500).2 = 250 ∧
    ceil_div 250 16 = 16 ∧ 250 % 16 = 10 ∧
    (32 : Nat) ≠ 16 ∧ (4 : Nat) ≠ 10 := by
  refine ⟨rfl, rfl, by decide, by decide, by decide, by decide, by decide, by decide⟩

/-- `screen_size` (icat.py lines 59-64) with the process-wide cache
(`screen_size.ans`) and the TIOCGWINSZ ioctl result made explicit: returns
the reported size and the new cache state. -/
def screen_size (refresh : Bool) (cache : Option Size) (ioctl_result : Size) :
    Size × Option Size :=
  if refresh || cache.isNone then (ioctl_result, some ioctl_result)
  else (cache.getD ioctl_result, cache)

/-- The fatal environment preconditions checked by `main`. -/
inductive Fatal where
  | notATty
  | noSizeSupport
  | noItems
  | noGraphicsProtocol
deriving DecidableEq, Repr

/-- The startup guard sequence of `main` (icat.py lines 230-242), which runs
before any image processing: tty check, screen-size check (the code tests
only `screen_size().width == 0`), empty-item check, protocol negotiation. -/
def main_precheck (stdout_tty stdin_tty : Bool) (s : Size) (items : List String)
    (graphics_supported : Bool) : Option Fatal :=
  if !stdout_tty || !stdin_tty then some Fatal.notATty
  else if s.width == 0 then some Fatal.noSizeSupport
  else if items.isEmpty then some Fatal.noItems
  else if !graphics_supported then some Fatal.noGraphicsProtocol
  else none

/-- C8, counterexample: a geometry reporting zero pixel HEIGHT but nonzero
pixel width passes every startup guard -- `main` does not fail fast, because
the line-234 check tests only the pixel width. -/
theorem main_precheck_zero_height_counterexample :
    (Size.mk 50 100 1000 0).height = 0 ∧
      main_precheck true true ⟨50, 100, 1000, 0⟩ ["a.png"] true = none := by
  constructor <;> rfl

/-- C8 (amended): for every geometry whose reported pixel WIDTH is zero the
program fails fast with the size-unsupported error before any image
processing; a zero pixel height alone is not detected at startup. -/
theorem main_precheck_zero_width (s : Size) (items : List String)
    (g : Bool) (h : s.width = 0) :
    main_precheck true true s items g = some Fatal.noSizeSupport := by
  simp [main_precheck, h]

/-- Witness for the amended C8 theorem at a concrete input. -/
theorem main_precheck_zero_width_witness :
    (Size.mk 1 2 0 4).width = 0 ∧
      main_precheck true true ⟨1, 2, 0, 4⟩ [] false = some Fatal.noSizeSupport :=
  ⟨rfl, main_precheck_zero_width ⟨1, 2, 0, 4⟩ [] false rfl⟩

/-- The directory branch of `main`'s item loop (icat.py lines 246-248):
`for x, mt in scan(item): process(item, mt)` -- the path argument passed to
`process` is the directory path `item`, not the discovered file path `x`.
The result of the filesystem scan is an explicit input. -/
def dir_process_calls (item : String) (scanned : List (String × String)) :
    List (String × String) :=
  scanned.map (fun pr => (item, pr.2))

/-- C9 (code bug at icat.py line 248): for a directory containing two
discovered images, every `process` call receives the directory path itself;
the discovered file paths are never passed on. -/
theorem dir_process_calls_use_directory_path :
    dir_process_calls "pics"
        [("pics/a.png", "image/png"), ("pics/sub/b.jpg", "image/jpeg")] =
      [("pics", "image/png"), ("pics", "image/jpeg")] ∧
    (dir_process_calls "pics"
        [("pics/a.png", "image/png"), ("pics/sub/b.jpg", "image/jpeg")]).map Prod.fst ≠
      ["pics/a.png", "pics/sub/b.jpg"] := by
  constructor
  · rfl
  · decide

/-- icat.py line 229 installs `lambda: screen_size(refresh=True)` as the
SIGWINCH handler: a lambda with zero parameters. -/
def sigwinch_handler_param_count : Nat := 0

/-- Python positional-call semantics: invoking a callable of fixed parameter
count with a different number of positional arguments raises TypeError
(modelled as `none`) instead of running the body. -/
def py_call {α : Type} (params nargs : Nat) (body : α) : Option α :=
  if nargs = params then some body else none

/-- Signal delivery invokes the installed handler with two positional
arguments: the signal number and the interrupted stack frame. -/
def deliver_sigwinch (cache : Option Size) (ioctl_result : Size) :
    Option (Size × Option Size) :=
  py_call sigwinch_handler_param_count 2 (screen_size true cache ioctl_result)

/-- C10 (code bug at icat.py line 229): delivering SIGWINCH calls the
zero-parameter handler with two arguments, which raises TypeError -- the
handler does not execute and the cached geometry is NOT recomputed -- even
though the `refresh=True` path itself would recompute the cache. -/
theorem sigwinch_handler_crashes :
    deliver_sigwinch (some ⟨24, 80, 640, 480⟩) ⟨30, 90, 900, 600⟩ = none ∧
      screen_size true (some ⟨24, 80, 640, 480⟩) ⟨30, 90, 900, 600⟩ =
        (⟨30, 90, 900, 600⟩, some ⟨30, 90, 900, 600⟩) := by
  constructor <;> rfl
